import Mathlib

/-!
Verification of the CellCanvas interactive voxel-classification pipeline
(`src/cellcanvas/app.py`) against its natural-language specification.

The Python source is shallowly embedded: volumes are flat lists of feature
vectors (rational entries), labels are flat lists of naturals, numpy boolean
mask indexing is `maskSelect`, the classifier and projection capabilities are
opaque function parameters, and the napari worker callbacks become explicit
state-transition functions.
-/

namespace CellCanvas

/-- An opaque classifier: maps one feature row to a 0-based class index,
mirroring the `Model.predict` capability (`clf.predict` applied row-wise). -/
def Model := List ℚ → ℤ

/-- An opaque 2-component projection: maps one feature row to a 2D point,
mirroring `Projection.transform` (`self.pls.transform` applied row-wise). -/
def Projection := List ℚ → ℚ × ℚ

/-! ### numpy boolean-mask indexing

`arr[mask]` keeps the entries of `arr` at positions where `mask` is `True`,
in order.  Used by `update_model` (`features[valid_labels, :]`,
`labels[valid_labels]`) and `create_embedding_plot`
(`features[labels > 0]`, `original_coords[labels > 0]`). -/

def maskSelect {α : Type} : List α → List Bool → List α
  | [], _ => []
  | _, [] => []
  | x :: xs, b :: bs => if b then x :: maskSelect xs bs else maskSelect xs bs

/-- The boolean mask `labels > 0` (code: `valid_labels = labels > 0`). -/
def labelMask (labels : List ℕ) : List Bool :=
  labels.map (fun l => decide (0 < l))

/-! ### TrainingScheduler: `update_model` (app.py lines 299-345)

`update_model` flattens the label volume, reshapes the features to rows,
keeps exactly the rows whose label is positive, subtracts 1 from the
surviving labels, computes balanced class weights, and fits the classifier;
it returns `None` when no labeled row survives. -/

/-- Code: `filtered_features = reshaped_features[valid_labels, :]`. -/
def filteredFeatures (features : List (List ℚ)) (labels : List ℕ) : List (List ℚ) :=
  maskSelect features (labelMask labels)

/-- Code: `labels[valid_labels]` (before the `- 1` shift). -/
def keptLabels (labels : List ℕ) : List ℕ :=
  maskSelect labels (labelMask labels)

/-- Code: `filtered_labels = labels[valid_labels] - 1`. -/
def remappedLabels (labels : List ℕ) : List ℕ :=
  (keptLabels labels).map (fun l => l - 1)

/-- The (feature row, shifted label) training pairs actually given to `fit`. -/
def trainingPairs (features : List (List ℚ)) (labels : List ℕ) : List (List ℚ × ℕ) :=
  (filteredFeatures features labels).zip (remappedLabels labels)

/-- `sklearn.compute_class_weight("balanced", ...)`: weight of class `c` is
`n_samples / (n_classes * count c)`. -/
def classWeight (fl : List ℕ) (c : ℕ) : ℚ :=
  (fl.length : ℚ) / ((fl.dedup.length : ℚ) * (fl.count c : ℚ))

/-- Code: `sample_weights = np.vectorize(weight_dict.get)(filtered_labels)`. -/
def sampleWeights (fl : List ℕ) : List ℚ :=
  fl.map (classWeight fl)

/-- `update_model(labels, features, model_type)`: returns `none` when the
filtered label set is empty ("No labels present. Skipping model update."),
otherwise fits the (opaque) classifier on the filtered data with per-sample
balanced weights. -/
def updateModel (fitClf : List (List ℚ) → List ℕ → List ℚ → Model)
    (labels : List ℕ) (features : List (List ℚ)) : Option Model :=
  let ff := filteredFeatures features labels
  let fl := remappedLabels labels
  if fl.length = 0 then none
  else some (fitClf ff fl (sampleWeights fl))

/-! ### Fit publication: `start_model_fit` / `on_model_fit_completed`
(app.py lines 395-416)

`start_model_fit` calls `quit()` on any prior fit worker and starts a new
one; napari's `FunctionWorker.quit()` only sets an abort flag that a plain
function worker never checks, so a superseded job that is already running
still emits its `returned` signal.  `on_model_fit_completed(model)` performs
`self.model = model` unconditionally: there is no generation counter and no
check that the arriving result belongs to the most recent request, so the
active model is simply whichever delivered result arrived last. -/

structure FitState where
  model : Option Model

/-- `on_model_fit_completed`: unconditionally publishes the arriving result
(`self.model = model`), even when that result is `None`. -/
def onModelFitCompleted (st : FitState) (result : Option Model) : FitState :=
  { st with model := result }

/-- Folding the completion handler over fit results in their arrival order:
each delivered `returned` signal of a fit worker invokes
`on_model_fit_completed` on the main thread. -/
def fitResultsFold (st : FitState) (results : List (Option Model)) : FitState :=
  results.foldl onModelFitCompleted st

/-! ### PredictionScheduler: `predict` / `prediction_thread` /
`start_prediction` / `on_prediction_completed` (app.py lines 347-393)

The feature tensor has shape `(zdim, ydim, xdim, F)`; it is embedded as its
C-order flattening: `feat n` is the feature vector of the voxel with flat
index `n`.  `predict` flattens, applies the model row-wise
(`future.predict_segmenter` reshapes back to `features.shape[:-1]`), adds 1,
computes `np.unique(..., return_counts=True)` of the result, and returns the
transposed prediction; `on_prediction_completed` transposes it back and
publishes array and counts. -/

/-- C-order flat index of `(i, j, k)` in a 3D array of shape `(s1, s2, s3)`. -/
def flat3 (s2 s3 i j k : ℕ) : ℕ :=
  (i * s2 + j) * s3 + k

/-- C-order index decomposition for shape `(s1, s2, s3)`. -/
def decomp3 (s2 s3 n : ℕ) : ℕ × ℕ × ℕ :=
  (n / s3 / s2, n / s3 % s2, n % s3)

/-- The feature tensor (`self.features`, shape `(zdim, ydim, xdim, F)`),
embedded by its C-order voxel flattening: `feat n` is the feature vector of
flat voxel index `n`. -/
structure Tensor4 where
  zdim : ℕ
  ydim : ℕ
  xdim : ℕ
  feat : ℕ → List ℚ

/-- `features.reshape(-1, features.shape[-1])`: the list of feature rows in
C order. -/
def tensorRows (t : Tensor4) : List (List ℚ) :=
  (List.range (t.zdim * t.ydim * t.xdim)).map t.feat

/-- A 3D integer array (label / prediction volume) of shape `(s1, s2, s3)`
stored as its C-order flat list. -/
structure Arr3 where
  s1 : ℕ
  s2 : ℕ
  s3 : ℕ
  val : List ℤ

/-- Element read `a[i, j, k]` (0 outside the stored range). -/
def Arr3.get3 (a : Arr3) (i j k : ℕ) : ℤ :=
  a.val.getD (flat3 a.s2 a.s3 i j k) 0

/-- `np.transpose`: reverses the axes; entry `(p, q, r)` of the result is
entry `(r, q, p)` of the argument. -/
def transpose3 (a : Arr3) : Arr3 :=
  ⟨a.s3, a.s2, a.s1,
    (List.range (a.s3 * a.s2 * a.s1)).map (fun n =>
      a.val.getD
        (flat3 a.s2 a.s3 (decomp3 a.s2 a.s1 n).2.2 (decomp3 a.s2 a.s1 n).2.1
          (decomp3 a.s2 a.s1 n).1) 0)⟩

/-- `np.unique(arr, return_counts=True)`: the sorted distinct values of the
array, each paired with its number of occurrences. -/
def npUnique (l : List ℤ) : List (ℤ × ℕ) :=
  ((l.insertionSort (· ≤ ·)).dedup).map (fun c => (c, l.count c))

/-- `predict(model, features)` (app.py lines 347-359): flatten, predict
row-wise, reshape to the volume's spatial shape, add 1, compute the
per-class counts of the result, and return the transposed prediction
together with the stats. -/
def predictOp (m : Model) (t : Tensor4) : Arr3 × List (ℤ × ℕ) :=
  let prediction : Arr3 :=
    ⟨t.zdim, t.ydim, t.xdim, ((tensorRows t).map m).map (fun c => c + 1)⟩
  (transpose3 prediction, npUnique prediction.val)

/-- `prediction_thread` runs `self.predict(self.model, features)`; when no
model has ever been fit, `self.model` is `None` and `clf.predict` raises
inside the worker, so the worker's `returned` signal never fires. -/
inductive PredError where
  | noModel

def predictChecked (m : Option Model) (t : Tensor4) :
    Except PredError (Arr3 × List (ℤ × ℕ)) :=
  match m with
  | none => .error .noModel
  | some clf => .ok (predictOp clf t)

/-- The prediction-side state: the published `PredictionVolume`
(`self.prediction_data`) and the published per-class stats
(`self.prediction_labels` / `self.prediction_counts`, zipped). -/
structure PredState where
  predData : Arr3
  predStats : List (ℤ × ℕ)

/-- `on_prediction_completed(result)`: transposes the arriving prediction
back and publishes array and per-class counts. -/
def onPredictionCompleted (st : PredState) (r : Arr3 × List (ℤ × ℕ)) : PredState :=
  { st with predData := transpose3 r.1, predStats := r.2 }

/-- `start_prediction` + worker + `on_prediction_completed` as one step:
if the worker raises (no model), the completion handler never runs and the
state is untouched; otherwise the result is published. -/
def runPrediction (st : PredState) (m : Option Model) (t : Tensor4) :
    PredState × Option PredError :=
  match predictChecked m t with
  | .error e => (st, some e)
  | .ok r => (onPredictionCompleted st r, none)

/-! ### EmbeddingProjector: `create_embedding_plot` (app.py lines 562-631)

The feature volume is flattened to rows and the painting labels to a flat
list; rows with label 0 are dropped; with fewer than 2 surviving rows the
function prints and returns without touching `self.pls` or
`self.filtered_coords`; otherwise a PLS projection is fitted and, for the
inverse lookup, the coordinate triples built by
`np.meshgrid(arange(x_dim), arange(y_dim), arange(z_dim), indexing="ij")`
are raveled and mask-selected with the same `labels > 0` mask. -/

/-- The raveled rows of `np.vstack([X.ravel(), Y.ravel(), Z.ravel()]).T`
where `X, Y, Z = np.meshgrid(np.arange(x_dim), np.arange(y_dim),
np.arange(z_dim), indexing="ij")`: entry `n` decomposes `n` C-order over the
meshgrid shape `(x_dim, y_dim, z_dim)`. -/
def originalCoords (xdim ydim zdim : ℕ) : List (ℕ × ℕ × ℕ) :=
  (List.range (xdim * ydim * zdim)).map (decomp3 ydim zdim)

/-- The `(z, y, x)` coordinate of flat voxel index `n` in a volume of shape
`(zdim, ydim, xdim)` flattened in C order (as features and labels are). -/
def voxelOfFlat (ydim xdim n : ℕ) : ℕ × ℕ × ℕ :=
  decomp3 ydim xdim n

/-- The embedding-side state: the fitted projection (`self.pls`) and the
retained 2D-point-to-voxel pairing table (`self.filtered_coords`). -/
structure EmbedState where
  pls : Option Projection
  filteredCoords : List (ℕ × ℕ × ℕ)

inductive EmbedResult where
  | updated
  | insufficientSamples

/-- `create_embedding_plot`: filter labeled rows, guard on `< 2` samples
(early return leaving all state untouched), otherwise fit the (opaque)
projection and retain the mask-selected coordinate pairing. -/
def createEmbeddingPlot (fitProj : List (List ℚ) → List ℕ → Projection)
    (xdim ydim zdim : ℕ) (features : List (List ℚ)) (labels : List ℕ)
    (st : EmbedState) : EmbedState × EmbedResult :=
  let ff := maskSelect features (labelMask labels)
  let fl := keptLabels labels
  if ff.length < 2 then (st, .insufficientSamples)
  else
    (⟨some (fitProj ff fl),
      maskSelect (originalCoords xdim ydim zdim) (labelMask labels)⟩, .updated)

/-! ### InteractiveSelector: `paint_thread` (app.py lines 640-660)

All feature rows are projected through the current `self.pls`; the indices
whose 2D point the lasso path contains are unraveled to `(z, y, x)` and the
target label is written there.  The polygon-containment test
(`matplotlib.path.Path.contains_point`) is an external geometry utility and
enters as an opaque predicate. -/

/-- The flat voxel indices painted by `paint_thread`:
`np.where([lasso_path.contains_point(p) for p in pls.transform(features)])`. -/
def paintContained (proj : Projection) (contains : ℚ × ℚ → Bool)
    (features : List (List ℚ)) : List ℕ :=
  (List.range features.length).filter (fun n => contains (proj (features.getD n [])))

/-- The flat indices of the labeled voxels (`labels > 0`), i.e. the sample
set used to fit the current projection. -/
def labeledIdx (labels : List ℕ) : List ℕ :=
  (List.range labels.length).filter (fun n => decide (0 < labels.getD n 0))

/-! ### BackgroundEstimator: `estimate_background` (app.py lines 526-557)

Per-dimension median over all voxels, per-voxel Euclidean distance to it,
threshold at `np.percentile(distances, 1)`, mask `distances < threshold`
(strict), then a per-voxel loop writing label 1 at every masked index. -/

/-- An ascending sort (numpy sorts ascending; any stable comparison sort has
the same value). -/
def sortQ (l : List ℚ) : List ℚ :=
  l.insertionSort (· ≤ ·)

/-- `np.median` of a 1D sample: middle element of the sorted list, or the
mean of the two middle elements for an even length. -/
def medianQ (l : List ℚ) : ℚ :=
  let s := sortQ l
  let n := s.length
  if n % 2 = 1 then s.getD (n / 2) 0
  else (s.getD (n / 2 - 1) 0 + s.getD (n / 2) 0) / 2

/-- `np.median(embedding_data, axis=(0, 1, 2))`: the per-feature-dimension
median over all voxels. -/
def medianVec (vol : List (List ℚ)) : List ℚ :=
  (List.range (vol.headD []).length).map
    (fun j => medianQ (vol.map (fun row => row.getD j 0)))

/-- Squared Euclidean distance of a feature row to the reference vector
(`np.sum((embedding_data - median_embedding) ** 2, axis=-1)`). -/
def sqDistTo (m : List ℚ) (x : List ℚ) : ℚ :=
  ((x.zip m).map (fun p => (p.1 - p.2) ^ 2)).sum

/-- The per-voxel squared distances to the feature-space median. -/
def bgSqDists (vol : List (List ℚ)) : List ℚ :=
  vol.map (sqDistTo (medianVec vol))

/-- The voxel's Euclidean distance to the median
(`np.sqrt(np.sum((...) ** 2, axis=-1))` at flat index `v`). -/
noncomputable def bgDistanceAt (vol : List (List ℚ)) (v : ℕ) : ℝ :=
  Real.sqrt (((bgSqDists vol).getD v 0 : ℚ) : ℝ)

/-- `np.percentile(distances.flatten(), 1)` with numpy's default linear
interpolation: position `(n - 1) / 100` in the ascending sort of the
distances.  Because `Real.sqrt` is monotone, the ascending sort of the
distances is the image under `Real.sqrt` of the ascending sort of the
squared distances; the two lemmas after this definition record that. -/
noncomputable def bgThreshold (vol : List (List ℚ)) : ℝ :=
  let s := sortQ (bgSqDists vol)
  let n := s.length
  let pos : ℚ := ((n : ℚ) - 1) / 100
  let i : ℕ := ⌊pos⌋₊
  let a : ℝ := Real.sqrt ((s.getD i 0 : ℚ) : ℝ)
  let b : ℝ := Real.sqrt ((s.getD (min (i + 1) (n - 1)) 0 : ℚ) : ℝ)
  a + ((pos : ℝ) - (i : ℕ)) * (b - a)

/-- The background mask for flat voxel index `v`:
`background_mask = distances < threshold` — strictly below. -/
def bgMask (vol : List (List ℚ)) (v : ℕ) : Prop :=
  bgDistanceAt vol v < bgThreshold vol

/-- The painting write-back loop (app.py lines 556-557): for each index in
`np.where(background_mask)`, write label 1 into the painting volume. -/
def paintLoop (painting : List ℤ) (idxs : List ℕ) : List ℤ :=
  idxs.foldl (fun p i => p.set i 1) painting

/-- Modelled from the spec's words ("remaps surviving labels to a 0-based
contiguous range"): a list of labels occupies a 0-based contiguous range
when every value is below the number of distinct values. -/
def specContiguous0 (l : List ℕ) : Prop :=
  ∀ x ∈ l, x < l.dedup.length

/-! ### Lemmas and theorems -/

@[simp]
lemma maskSelect_nil_left {α : Type} (bs : List Bool) :
    maskSelect ([] : List α) bs = [] := by
  cases bs <;> rfl

@[simp]
lemma maskSelect_nil_right {α : Type} (xs : List α) :
    maskSelect xs ([] : List Bool) = [] := by
  cases xs <;> rfl

@[simp]
lemma maskSelect_cons {α : Type} (x : α) (xs : List α) (b : Bool) (bs : List Bool) :
    maskSelect (x :: xs) (b :: bs) =
      if b then x :: maskSelect xs bs else maskSelect xs bs := rfl

/-- Selecting with a mask computed from a parallel list is filtering the zip.
This is the bridge between numpy's two parallel mask-indexed reads and a
single filtered list of (feature, label) pairs. -/
lemma maskSelect_map_eq_filter_zip {α β : Type} (p : β → Bool)
    (xs : List α) (ys : List β) :
    maskSelect xs (ys.map p) =
      (((xs.zip ys).filter (fun q => p q.2)).map (fun q => q.1)) := by
  induction xs generalizing ys with
  | nil => simp
  | cons x xs ih =>
    cases ys with
    | nil => simp
    | cons y ys =>
      by_cases h : p y <;> simp [List.filter_cons, h, ih]

/-- Selecting a list with its own positivity mask keeps the positive entries. -/
lemma maskSelect_self_pos (labels : List ℕ) :
    maskSelect labels (labelMask labels) = labels.filter (fun l => decide (0 < l)) := by
  rw [labelMask, maskSelect_map_eq_filter_zip]
  induction labels with
  | nil => simp
  | cons l ls ih =>
    by_cases h : 0 < l <;> simp [List.filter_cons, h, ih]

lemma flat3_lt {s1 s2 s3 i j k : ℕ} (hi : i < s1) (hj : j < s2) (hk : k < s3) :
    flat3 s2 s3 i j k < s1 * s2 * s3 := by
  have h1 : i * s2 + j < s1 * s2 := by
    calc i * s2 + j < i * s2 + s2 := by omega
    _ = (i + 1) * s2 := by ring
    _ ≤ s1 * s2 := Nat.mul_le_mul_right s2 (by omega)
  calc flat3 s2 s3 i j k < (i * s2 + j) * s3 + s3 := by
        simp only [flat3]; omega
  _ = (i * s2 + j + 1) * s3 := by ring
  _ ≤ (s1 * s2) * s3 := Nat.mul_le_mul_right s3 (by omega)

lemma flat3_mod {s2 s3 i j k : ℕ} (hk : k < s3) :
    flat3 s2 s3 i j k % s3 = k := by
  simp only [flat3]
  rw [Nat.add_comm, Nat.add_mul_mod_self_right, Nat.mod_eq_of_lt hk]

lemma flat3_div {s2 s3 i j k : ℕ} (hk : k < s3) :
    flat3 s2 s3 i j k / s3 = i * s2 + j := by
  have h3 : 0 < s3 := by omega
  simp only [flat3]
  rw [Nat.add_comm, Nat.add_mul_div_right _ _ h3, Nat.div_eq_of_lt hk, Nat.zero_add]

lemma decomp3_flat3 {s2 s3 i j k : ℕ} (hj : j < s2) (hk : k < s3) :
    decomp3 s2 s3 (flat3 s2 s3 i j k) = (i, j, k) := by
  have h2 : 0 < s2 := by omega
  simp only [decomp3, flat3_mod hk, flat3_div hk]
  have hdiv : (i * s2 + j) / s2 = i := by
    rw [Nat.add_comm, Nat.add_mul_div_right _ _ h2, Nat.div_eq_of_lt hj, Nat.zero_add]
  have hmod : (i * s2 + j) % s2 = j := by
    rw [Nat.add_comm, Nat.add_mul_mod_self_right, Nat.mod_eq_of_lt hj]
  rw [hdiv, hmod]

lemma flat3_decomp3 (s2 s3 n : ℕ) :
    flat3 s2 s3 (decomp3 s2 s3 n).1 (decomp3 s2 s3 n).2.1 (decomp3 s2 s3 n).2.2 = n := by
  simp only [flat3, decomp3]
  have h1 : n / s3 / s2 * s2 + n / s3 % s2 = n / s3 := by
    rw [Nat.mul_comm]; exact Nat.div_add_mod _ _
  rw [h1, Nat.mul_comm]
  exact Nat.div_add_mod _ _

lemma getD_map_range {α : Type} (f : ℕ → α) (d : α) {N n : ℕ} (h : n < N) :
    ((List.range N).map f).getD n d = f n := by
  rw [List.getD_eq_getElem?_getD]
  simp [List.getElem?_range, h]

lemma map_range_getD_self (l : List ℤ) :
    (List.range l.length).map (fun n => l.getD n 0) = l := by
  apply List.ext_getElem
  · simp
  · intro n h1 h2
    simp only [List.getElem_map, List.getElem_range]
    rw [List.getD_eq_getElem?_getD, List.getElem?_eq_getElem h2]
    rfl

/-- Transposing twice restores the array (`np.transpose` is an involution on
3D arrays whose flat storage matches their shape). -/
lemma transpose3_transpose3 (a : Arr3) (hlen : a.val.length = a.s1 * a.s2 * a.s3) :
    transpose3 (transpose3 a) = a := by
  obtain ⟨s1, s2, s3, l⟩ := a
  simp only at hlen
  simp only [transpose3, Arr3.mk.injEq, true_and]
  have hmain : ∀ n < s1 * s2 * s3,
      (((List.range (s3 * s2 * s1)).map (fun m =>
        l.getD (flat3 s2 s3 (decomp3 s2 s1 m).2.2 (decomp3 s2 s1 m).2.1
          (decomp3 s2 s1 m).1) 0)).getD
        (flat3 s2 s1 (decomp3 s2 s3 n).2.2 (decomp3 s2 s3 n).2.1
          (decomp3 s2 s3 n).1) 0) = l.getD n 0 := by
    intro n hn
    have hpos1 : 0 < s1 := by
      rcases Nat.eq_zero_or_pos s1 with h | h
      · subst h; simp at hn
      · exact h
    have hpos2 : 0 < s2 := by
      rcases Nat.eq_zero_or_pos s2 with h | h
      · subst h; simp at hn
      · exact h
    have hpos3 : 0 < s3 := by
      rcases Nat.eq_zero_or_pos s3 with h | h
      · subst h; simp at hn
      · exact h
    -- the components of n's decomposition over shape (s1, s2, s3)
    have hi : n / s3 / s2 < s1 := by
      rw [Nat.div_div_eq_div_mul]
      apply Nat.div_lt_of_lt_mul
      calc n < s1 * s2 * s3 := hn
      _ = s3 * s2 * s1 := by ring
    have hj : n / s3 % s2 < s2 := Nat.mod_lt _ hpos2
    have hk : n % s3 < s3 := Nat.mod_lt _ hpos3
    have hlt : flat3 s2 s1 (decomp3 s2 s3 n).2.2 (decomp3 s2 s3 n).2.1
        (decomp3 s2 s3 n).1 < s3 * s2 * s1 := by
      simp only [decomp3]
      exact flat3_lt hk hj hi
    rw [getD_map_range _ _ hlt]
    have hd : decomp3 s2 s1
        (flat3 s2 s1 (decomp3 s2 s3 n).2.2 (decomp3 s2 s3 n).2.1 (decomp3 s2 s3 n).1)
        = ((decomp3 s2 s3 n).2.2, (decomp3 s2 s3 n).2.1, (decomp3 s2 s3 n).1) := by
      apply decomp3_flat3
      · simpa [decomp3] using hj
      · simpa [decomp3] using hi
    rw [hd]
    have hrec := flat3_decomp3 s2 s3 n
    simp only [decomp3] at hrec ⊢
    rw [hrec]
  calc (List.range (s1 * s2 * s3)).map (fun n =>
        ((List.range (s3 * s2 * s1)).map fun m =>
          l.getD (flat3 s2 s3 (decomp3 s2 s1 m).2.2 (decomp3 s2 s1 m).2.1
            (decomp3 s2 s1 m).1) 0).getD
          (flat3 s2 s1 (decomp3 s2 s3 n).2.2 (decomp3 s2 s3 n).2.1
            (decomp3 s2 s3 n).1) 0)
      = (List.range (s1 * s2 * s3)).map (fun n => l.getD n 0) := by
        apply List.map_congr_left
        intro n hn
        exact hmain n (List.mem_range.mp hn)
  _ = l := by rw [← hlen]; exact map_range_getD_self l

lemma mem_npUnique (l : List ℤ) (c : ℤ) (n : ℕ) :
    (c, n) ∈ npUnique l ↔ c ∈ l ∧ n = l.count c := by
  simp only [npUnique, List.mem_map, Prod.mk.injEq]
  constructor
  · rintro ⟨a, ha, rfl, rfl⟩
    exact ⟨(l.perm_insertionSort (· ≤ ·)).mem_iff.mp (List.mem_dedup.mp ha), rfl⟩
  · rintro ⟨hc, rfl⟩
    exact ⟨c, List.mem_dedup.mpr ((l.perm_insertionSort (· ≤ ·)).mem_iff.mpr hc), rfl, rfl⟩

/-- The sqrt image of the sorted squared distances is itself sorted … -/
lemma bg_sorted_dists_sorted (sq : List ℚ) :
    List.Sorted (· ≤ ·) ((sortQ sq).map (fun q : ℚ => Real.sqrt (q : ℝ))) := by
  have hs : List.Sorted (· ≤ ·) (sortQ sq) := List.sorted_insertionSort _ sq
  exact List.Pairwise.map _ (fun a b hab => Real.sqrt_le_sqrt (by exact_mod_cast hab)) hs

/-- … and is a permutation of the distance list, hence it is exactly numpy's
ascending sort of the distances. -/
lemma bg_sorted_dists_perm (sq : List ℚ) :
    ((sortQ sq).map (fun q : ℚ => Real.sqrt (q : ℝ))).Perm
      (sq.map (fun q : ℚ => Real.sqrt (q : ℝ))) :=
  (sq.perm_insertionSort (· ≤ ·)).map _

lemma getD_set_self (l : List ℤ) (i : ℕ) (a : ℤ) (h : i < l.length) :
    (l.set i a).getD i 0 = a := by
  rw [List.getD_eq_getElem?_getD, List.getElem?_set_self ?h]
  · rfl
  · simpa using h

lemma getD_set_ne (l : List ℤ) {i v : ℕ} (a : ℤ) (h : i ≠ v) :
    (l.set i a).getD v 0 = l.getD v 0 := by
  rw [List.getD_eq_getElem?_getD, List.getD_eq_getElem?_getD, List.getElem?_set_ne h]

/-- Each pass of the write-back loop writes the constant 1, so the loop's
effect is pointwise: written where the index occurs, untouched elsewhere. -/
lemma paintLoop_getD (painting : List ℤ) (idxs : List ℕ) (v : ℕ)
    (hv : v < painting.length) :
    (paintLoop painting idxs).getD v 0 =
      if v ∈ idxs then 1 else painting.getD v 0 := by
  induction idxs generalizing painting with
  | nil => simp [paintLoop]
  | cons i t ih =>
    have hstep : paintLoop painting (i :: t) = paintLoop (painting.set i 1) t := rfl
    rw [hstep, ih (painting.set i 1) (by simpa using hv)]
    by_cases hvt : v ∈ t
    · simp [hvt, List.mem_cons]
    · rw [if_neg hvt]
      by_cases hiv : i = v
      · subst hiv
        rw [getD_set_self painting i 1 hv, if_pos (List.mem_cons_self i t)]
      · have hnc : v ∉ i :: t := by
          intro hmem
          rcases List.mem_cons.mp hmem with h | h
          · exact hiv h.symm
          · exact hvt h
        rw [getD_set_ne painting 1 hiv, if_neg hnc]

lemma getD_mem_of_lt {α : Type} (l : List α) (d : α) {n : ℕ} (h : n < l.length) :
    l.getD n d ∈ l := by
  rw [List.getD_eq_getElem l d h]
  exact l.getElem_mem h

/-- On a zero-variance feature field (all rows equal) every distance equals
the common value and the 1st-percentile threshold equals it as well. -/
lemma bg_const_dist_eq_threshold (vol : List (List ℚ)) (r : List ℚ)
    (hall : ∀ x ∈ vol, x = r) {v : ℕ} (hv : v < vol.length) :
    bgDistanceAt vol v = bgThreshold vol := by
  set c : ℚ := sqDistTo (medianVec vol) r with hc
  have hlen : (bgSqDists vol).length = vol.length := by simp [bgSqDists]
  have hmem : ∀ q ∈ bgSqDists vol, q = c := by
    intro q hq
    rcases List.mem_map.mp hq with ⟨row, hrow, hrowq⟩
    rw [← hrowq, hall row hrow]
  have hsmem : ∀ q ∈ sortQ (bgSqDists vol), q = c := by
    intro q hq
    exact hmem q (((bgSqDists vol).perm_insertionSort (· ≤ ·)).mem_iff.mp hq)
  have hslen : (sortQ (bgSqDists vol)).length = vol.length := by
    rw [sortQ, List.length_insertionSort, hlen]
  have hn : 0 < vol.length := by omega
  -- the distance at v is √c
  have hdist : bgDistanceAt vol v = Real.sqrt (c : ℝ) := by
    rw [bgDistanceAt, hmem _ (getD_mem_of_lt _ _ (by omega))]
  -- the interpolation indices are in range, so both interpolation ends are √c
  have hthr : bgThreshold vol = Real.sqrt (c : ℝ) := by
    rw [bgThreshold]
    set s := sortQ (bgSqDists vol) with hs
    set n := s.length with hnn
    have hn1 : 1 ≤ n := by omega
    set pos : ℚ := ((n : ℚ) - 1) / 100 with hpos
    have h0 : (0 : ℚ) ≤ (n : ℚ) - 1 := by
      have h1 : (1 : ℚ) ≤ (n : ℚ) := by exact_mod_cast hn1
      linarith
    have hposle : pos ≤ ((n - 1 : ℕ) : ℚ) := by
      rw [hpos, Nat.cast_sub hn1, Nat.cast_one]
      exact div_le_self h0 (by norm_num)
    have hile : ⌊pos⌋₊ ≤ n - 1 := by
      calc ⌊pos⌋₊ ≤ ⌊((n - 1 : ℕ) : ℚ)⌋₊ := Nat.floor_le_floor hposle
      _ = n - 1 := Nat.floor_natCast _
    have hilt : ⌊pos⌋₊ < n := by omega
    have hblt : min (⌊pos⌋₊ + 1) (n - 1) < n := by omega
    rw [hsmem _ (getD_mem_of_lt _ _ hilt), hsmem _ (getD_mem_of_lt _ _ hblt)]
    ring
  rw [hdist, hthr]

/-- Consequently the strict comparison `distances < threshold` is false at
every voxel of a zero-variance feature field: the background mask is empty. -/
lemma bgMask_const_false (vol : List (List ℚ)) (r : List ℚ)
    (hall : ∀ x ∈ vol, x = r) {v : ℕ} (hv : v < vol.length) : ¬ bgMask vol v := by
  rw [bgMask, bg_const_dist_eq_threshold vol r hall hv]
  exact lt_irrefl _

/-- Mask-selecting a parallel list with the `labels > 0` mask keeps as many
entries as there are positive labels. -/
lemma maskSelect_labelMask_length {α : Type} (xs : List α) (ys : List ℕ)
    (h : xs.length = ys.length) :
    (maskSelect xs (labelMask ys)).length =
      (ys.filter (fun l => decide (0 < l))).length := by
  induction xs generalizing ys with
  | nil =>
    cases ys with
    | nil => simp
    | cons y ys => simp at h
  | cons x xs ih =>
    cases ys with
    | nil => simp at h
    | cons y ys =>
      simp only [labelMask, List.map_cons, maskSelect_cons, List.filter_cons]
      by_cases hy : 0 < y
      · simpa [hy] using ih ys (by simpa using h)
      · simpa [hy] using ih ys (by simpa using h)

/-- Pairing the mask-selected features with the mask-selected-and-shifted
labels is the same as filtering the zipped rows and shifting in place. -/
lemma zip_maskSelect_pair {α β γ : Type} (p : β → Bool) (f : β → γ)
    (xs : List α) (ys : List β) :
    (maskSelect xs (ys.map p)).zip ((maskSelect ys (ys.map p)).map f) =
      ((xs.zip ys).filter (fun q => p q.2)).map (fun q => (q.1, f q.2)) := by
  induction xs generalizing ys with
  | nil => simp
  | cons x xs ih =>
    cases ys with
    | nil => simp
    | cons y ys =>
      by_cases h : p y <;> simp [List.filter_cons, h, ih]

/-- C1 counterexample: issue Fit(A) then Fit(B) before A completes, with
B's result arriving first and A's late result arriving afterwards.  The
completion handler has no generation check, so the late superseded result
A (the model mapping every row to 0) ends up active instead of B's model
(mapping every row to 1): the claimed single-flight property fails. -/
theorem fit_superseded_result_clobbers_cex :
    (fitResultsFold ⟨none⟩
        [some (fun _ => (1 : ℤ)), some (fun _ => (0 : ℤ))]).model =
      some (fun _ => (0 : ℤ))
    ∧ ((fun _ => (0 : ℤ)) : Model) ≠ ((fun _ => (1 : ℤ)) : Model) := by
  refine ⟨rfl, fun h => ?_⟩
  have h0 : (0 : ℤ) = 1 := congrFun h []
  norm_num at h0

/-- C1 (amended): `on_model_fit_completed` publishes every delivered fit
result unconditionally, so after any sequence of result arrivals the active
model is the last delivered result (or the prior model when nothing is
delivered).  In particular Fit(B)'s model stays active only when B's result
arrives after A's; a late-arriving superseded result is published and
clobbers newer state. -/
theorem fit_last_delivered_result_wins (st : FitState)
    (results : List (Option Model)) :
    (fitResultsFold st results).model = results.getLastD st.model := by
  induction results generalizing st with
  | nil => rfl
  | cons r t ih =>
    show (fitResultsFold (onModelFitCompleted st r) t).model =
      (r :: t).getLastD st.model
    rw [List.getLastD_cons]
    exact ih (onModelFitCompleted st r)

/-- C2: a fit request whose labels are all 0 makes `update_model` return
`None` ("Skipping model update"), but `on_model_fit_completed` then runs
`self.model = None`, erasing the previously active model (here the model
mapping every row to 7) instead of leaving it active. -/
theorem fit_empty_labels_clears_prior_model :
    updateModel (fun _ _ _ => (fun _ => (0 : ℤ))) [0, 0] [[1], [2]] = none
    ∧ (onModelFitCompleted ⟨some (fun _ => (7 : ℤ))⟩
        (updateModel (fun _ _ _ => (fun _ => (0 : ℤ))) [0, 0] [[1], [2]])).model
      = none := by
  exact ⟨rfl, rfl⟩

/-- C3: invoking prediction with `self.model = None` makes the worker fail
(`clf.predict` on `None` raises before anything is produced), the error is
surfaced as the job's outcome, `on_prediction_completed` never runs, and the
prediction volume and stats are exactly the prior state's. -/
theorem predict_without_model_fails_and_preserves_volume (st : PredState)
    (t : Tensor4) :
    runPrediction st none t = (st, some PredError.noModel) := rfl

/-- C4 counterexample: for the label vector `[1, 5]` the surviving labels
are shifted by one to `[0, 4]`, which is not a 0-based contiguous range
(two distinct values, but 4 is not below 2): `update_model` subtracts 1, it
does not remap to a contiguous range. -/
theorem training_remap_not_contiguous_cex :
    remappedLabels [1, 5] = [0, 4] ∧ ¬ specContiguous0 (remappedLabels [1, 5]) := by
  refine ⟨rfl, ?_⟩
  simp only [specContiguous0, show remappedLabels [1, 5] = [0, 4] from rfl]
  decide

/-- C4 (amended): the training scheduler keeps exactly the rows whose label
is positive — the filtered training pairs are the zipped (feature, label)
rows with label 0 removed and each surviving label decreased by 1 — and the
surviving labels before the shift are all positive.  The shift is a plain
`- 1`, so the result is a 0-based contiguous range only when the original
positive labels already were `1..K`. -/
theorem training_filter_and_shift (features : List (List ℚ)) (labels : List ℕ) :
    trainingPairs features labels =
      ((features.zip labels).filter (fun q => decide (0 < q.2))).map
        (fun q => (q.1, q.2 - 1))
    ∧ ∀ l ∈ keptLabels labels, 0 < l := by
  constructor
  · rw [trainingPairs, filteredFeatures, remappedLabels, keptLabels, labelMask]
    exact zip_maskSelect_pair (fun l => decide (0 < l)) (fun l => l - 1) features labels
  · intro l hl
    rw [keptLabels, maskSelect_self_pos] at hl
    simpa using List.of_mem_filter hl

/-- C4 witness: the filter-and-shift characterisation evaluated on a
concrete feature matrix and label vector with a 0 entry. -/
theorem training_filter_and_shift_witness :
    trainingPairs [[(5 : ℚ)], [(6 : ℚ)]] [0, 3] =
      (([[(5 : ℚ)], [(6 : ℚ)]].zip [0, 3]).filter (fun q => decide (0 < q.2))).map
        (fun q => (q.1, q.2 - 1))
    ∧ ∀ l ∈ keptLabels [0, 3], 0 < l :=
  training_filter_and_shift [[(5 : ℚ)], [(6 : ℚ)]] [0, 3]

/-- C5 counterexample: on the zero-variance feature volume with two voxels
whose feature vector is `[0]`, every voxel's distance to the median equals
the 1st-percentile threshold (both are 0), i.e. is "at or below" it, yet
`background_mask = distances < threshold` is strict and labels neither
voxel; nor is any degenerate-case signal raised (`estimate_background`
returns normally).  The claim's "at or below" rule and its "labels every
voxel or signals NoVariance" alternative both fail here. -/
theorem bg_at_threshold_not_labeled_cex :
    bgDistanceAt [[(0 : ℚ)], [(0 : ℚ)]] 0 ≤ bgThreshold [[(0 : ℚ)], [(0 : ℚ)]]
    ∧ ¬ bgMask [[(0 : ℚ)], [(0 : ℚ)]] 0 ∧ ¬ bgMask [[(0 : ℚ)], [(0 : ℚ)]] 1 := by
  have hall : ∀ x ∈ [[(0 : ℚ)], [(0 : ℚ)]], x = [(0 : ℚ)] := by decide
  exact ⟨le_of_eq (bg_const_dist_eq_threshold _ _ hall (by norm_num)),
    bgMask_const_false _ _ hall (by norm_num),
    bgMask_const_false _ _ hall (by norm_num)⟩

/-- C5 (amended): background estimation labels exactly the voxels whose
Euclidean distance to the feature-space median is strictly below the
1st-percentile threshold; on a zero-variance feature field (all rows equal)
every distance equals the threshold, so no voxel is labeled and no signal
is raised — neither "label everything" nor a `NoVariance` error. -/
theorem bg_zero_variance_labels_nothing (vol : List (List ℚ)) (r : List ℚ)
    (hall : ∀ x ∈ vol, x = r) (v : ℕ) (hv : v < vol.length) :
    ¬ bgMask vol v :=
  bgMask_const_false vol r hall hv

/-- C5 witness: the zero-variance emptiness at a concrete constant volume. -/
theorem bg_zero_variance_labels_nothing_witness :
    ¬ bgMask [[(1 : ℚ)], [(1 : ℚ)]] 0 :=
  bg_zero_variance_labels_nothing [[(1 : ℚ)], [(1 : ℚ)]] [(1 : ℚ)] (by decide) 0
    (by norm_num)

/-- C6 counterexample: three voxels with features `[0]`, `[1]`, `[2]` and
labels `[1, 2, 0]` (voxel 2 unlabeled).  A lasso that contains every
projected point paints all three voxels — `paint_thread` projects the FULL
feature volume, not only the fitted samples — which is strictly more than
the labeled voxel set `{0, 1}` used to fit the projection.  The painted set
is independent of the projection function here, so this refutes the claim
for whatever projection the fit produced. -/
theorem lasso_encloses_all_paints_unlabeled_cex :
    paintContained (fun _ => ((0 : ℚ), (0 : ℚ))) (fun _ => true) [[0], [1], [2]]
        = [0, 1, 2]
    ∧ labeledIdx [1, 2, 0] = [0, 1]
    ∧ paintContained (fun _ => ((0 : ℚ), (0 : ℚ))) (fun _ => true) [[0], [1], [2]]
        ≠ labeledIdx [1, 2, 0] := by
  refine ⟨rfl, rfl, ?_⟩
  intro h
  exact absurd (h : ([0, 1, 2] : List ℕ) = [0, 1]) (by decide)

/-- C6 (amended): for any fitted projection, a polygon containing every
projected point of the full feature volume makes `paint_thread` paint every
voxel of the volume — a superset of the labeled voxel set, strict whenever
some voxel is unlabeled. -/
theorem lasso_encloses_all_paints_every_voxel (proj : Projection)
    (contains : ℚ × ℚ → Bool) (features : List (List ℚ))
    (h : ∀ n < features.length, contains (proj (features.getD n [])) = true) :
    paintContained proj contains features = List.range features.length := by
  rw [paintContained, List.filter_eq_self]
  intro n hn
  exact h n (List.mem_range.mp hn)

/-- C6 witness: the enclose-everything hypothesis discharged concretely. -/
theorem lasso_encloses_all_paints_every_voxel_witness :
    paintContained (fun _ => ((0 : ℚ), (1 : ℚ))) (fun _ => true) [[3], [4]]
      = List.range 2 :=
  lasso_encloses_all_paints_every_voxel (fun _ => ((0 : ℚ), (1 : ℚ)))
    (fun _ => true) [[3], [4]] (by decide)

/-- C7: for the non-cubic volume of shape `(zdim, ydim, xdim) = (2, 1, 3)`
with labeled voxels at flat indices 0 and 2 (coordinates `(0,0,0)` and
`(0,0,2)`), the pairing table built from
`np.meshgrid(arange(x_dim), arange(y_dim), arange(z_dim), indexing="ij")`
retains `(1, 0, 0)` as the coordinate of the second labeled voxel, not its
actual coordinate `(0, 0, 2)`: the meshgrid decomposes flat indices with
the x-major radices `(x_dim, y_dim, z_dim)` while features and labels are
flattened z-major, so the retained pairing maps the voxel's 2D point to the
wrong `(z, y, x)` whenever `x_dim ≠ z_dim`. -/
theorem embedding_coords_pairing_mismatch :
    maskSelect (originalCoords 3 1 2) (labelMask [1, 0, 1, 0, 0, 0])
        = [(0, 0, 0), (1, 0, 0)]
    ∧ voxelOfFlat 1 3 2 = (0, 0, 2)
    ∧ ((1 : ℕ), (0 : ℕ), (0 : ℕ)) ≠ ((0 : ℕ), (0 : ℕ), (2 : ℕ)) := by
  refine ⟨?_, by decide, by decide⟩
  decide

/-- C9: when fewer than 2 labeled voxels exist, `create_embedding_plot`
returns before fitting: the outcome is the insufficient-samples skip and
the state — previous projection and previous pairing table — is exactly
unchanged and hence still usable for selection. -/
theorem embedding_guard_preserves_projection
    (fitProj : List (List ℚ) → List ℕ → Projection) (xdim ydim zdim : ℕ)
    (features : List (List ℚ)) (labels : List ℕ) (st : EmbedState)
    (hlen : features.length = labels.length)
    (hcount : (labels.filter (fun l => decide (0 < l))).length < 2) :
    createEmbeddingPlot fitProj xdim ydim zdim features labels st =
      (st, EmbedResult.insufficientSamples) := by
  have hff : (maskSelect features (labelMask labels)).length < 2 := by
    rw [maskSelect_labelMask_length features labels hlen]
    exact hcount
  simp only [createEmbeddingPlot]
  rw [if_pos hff]

/-- C9 witness: one labeled voxel, guard taken, state returned verbatim. -/
theorem embedding_guard_preserves_projection_witness :
    createEmbeddingPlot (fun _ _ => (fun _ => ((0 : ℚ), (0 : ℚ)))) 1 1 1
        [[5]] [1] ⟨none, []⟩ = (⟨none, []⟩, EmbedResult.insufficientSamples) :=
  embedding_guard_preserves_projection (fun _ _ => (fun _ => ((0 : ℚ), (0 : ℚ))))
    1 1 1 [[5]] [1] ⟨none, []⟩ (by decide) (by decide)

/-- C10: the background write-back loop assigns exactly the constant label 1
at every index of `np.where(background_mask)` — i.e. at every voxel whose
distance is strictly below the threshold — and leaves every other voxel's
painting label untouched. -/
theorem background_paint_writes_one_and_preserves (vol : List (List ℚ))
    (painting : List ℤ) (idxs : List ℕ)
    (hidx : ∀ i, i ∈ idxs ↔ (i < vol.length ∧ bgMask vol i))
    (hlen : painting.length = vol.length) (v : ℕ) (hv : v < vol.length) :
    (bgMask vol v → (paintLoop painting idxs).getD v 0 = 1)
    ∧ (¬ bgMask vol v → (paintLoop painting idxs).getD v 0 = painting.getD v 0) := by
  have hv' : v < painting.length := by omega
  rw [paintLoop_getD painting idxs v hv']
  constructor
  · intro hm
    rw [if_pos ((hidx v).mpr ⟨hv, hm⟩)]
  · intro hm
    rw [if_neg (fun hmem => hm ((hidx v).mp hmem).2)]

/-- C10 witness: a constant feature volume has an empty background index
set; the loop leaves the concrete painting `[5, 7]` unchanged at voxel 0. -/
theorem background_paint_writes_one_and_preserves_witness :
    (bgMask [[(2 : ℚ)], [(2 : ℚ)]] 0 → (paintLoop [5, 7] []).getD 0 0 = 1)
    ∧ (¬ bgMask [[(2 : ℚ)], [(2 : ℚ)]] 0 →
        (paintLoop [5, 7] []).getD 0 0 = ([5, 7] : List ℤ).getD 0 0) := by
  apply background_paint_writes_one_and_preserves [[(2 : ℚ)], [(2 : ℚ)]] [5, 7] []
  · intro i
    constructor
    · intro h
      simp at h
    · rintro ⟨hi, hm⟩
      exact absurd hm (bgMask_const_false [[(2 : ℚ)], [(2 : ℚ)]] [(2 : ℚ)] (by decide) hi)
  · decide
  · norm_num

/-- C8: for every model and feature tensor, the published prediction volume
equals the model's raw class index at each voxel plus 1 (the transpose done
in `predict` and the transpose done in `on_prediction_completed` cancel, so
raw classes `0..K-1` land on labels `1..K` over the volume's spatial
shape), and the published stats pair each occurring class value with its
voxel count in that published result. -/
theorem prediction_encoding_and_counts (m : Model) (t : Tensor4) (st : PredState)
    (i j k : ℕ) (hi : i < t.zdim) (hj : j < t.ydim) (hk : k < t.xdim) :
    ((runPrediction st (some m) t).1.predData).get3 i j k =
      m (t.feat (flat3 t.ydim t.xdim i j k)) + 1
    ∧ ∀ c n, (c, n) ∈ (runPrediction st (some m) t).1.predStats ↔
        (c ∈ ((runPrediction st (some m) t).1.predData).val
         ∧ n = ((runPrediction st (some m) t).1.predData).val.count c) := by
  have hval : ((tensorRows t).map m).map (fun c => c + 1) =
      (List.range (t.zdim * t.ydim * t.xdim)).map (fun n => m (t.feat n) + 1) := by
    rw [tensorRows, List.map_map, List.map_map]
    rfl
  have hlen : (((tensorRows t).map m).map (fun c => c + 1)).length =
      t.zdim * t.ydim * t.xdim := by
    simp [tensorRows]
  have hdub : transpose3 (transpose3
      (⟨t.zdim, t.ydim, t.xdim, ((tensorRows t).map m).map (fun c => c + 1)⟩ : Arr3)) =
      (⟨t.zdim, t.ydim, t.xdim, ((tensorRows t).map m).map (fun c => c + 1)⟩ : Arr3) :=
    transpose3_transpose3 _ hlen
  have hrun : (runPrediction st (some m) t).1 =
      ⟨(⟨t.zdim, t.ydim, t.xdim, ((tensorRows t).map m).map (fun c => c + 1)⟩ : Arr3),
        npUnique (((tensorRows t).map m).map (fun c => c + 1))⟩ := by
    show (⟨transpose3 (transpose3 _), _⟩ : PredState) = _
    rw [hdub]
    rfl
  rw [hrun]
  constructor
  · show (((tensorRows t).map m).map (fun c => c + 1)).getD
        (flat3 t.ydim t.xdim i j k) 0 = m (t.feat (flat3 t.ydim t.xdim i j k)) + 1
    rw [hval, getD_map_range _ _ (flat3_lt hi hj hk)]
  · intro c n
    exact mem_npUnique (((tensorRows t).map m).map (fun c => c + 1)) c n

/-- C8 witness: a one-voxel tensor with the constant-class-0 model: the
published prediction at voxel `(0,0,0)` is 1 and the stats invariant holds. -/
theorem prediction_encoding_and_counts_witness :
    ((runPrediction ⟨⟨0, 0, 0, []⟩, []⟩ (some (fun _ => (0 : ℤ)))
        ⟨1, 1, 1, fun _ => [(0 : ℚ)]⟩).1.predData).get3 0 0 0 = 0 + 1
    ∧ ∀ c n, (c, n) ∈ (runPrediction ⟨⟨0, 0, 0, []⟩, []⟩ (some (fun _ => (0 : ℤ)))
        ⟨1, 1, 1, fun _ => [(0 : ℚ)]⟩).1.predStats ↔
        (c ∈ ((runPrediction ⟨⟨0, 0, 0, []⟩, []⟩ (some (fun _ => (0 : ℤ)))
          ⟨1, 1, 1, fun _ => [(0 : ℚ)]⟩).1.predData).val
         ∧ n = ((runPrediction ⟨⟨0, 0, 0, []⟩, []⟩ (some (fun _ => (0 : ℤ)))
          ⟨1, 1, 1, fun _ => [(0 : ℚ)]⟩).1.predData).val.count c) :=
  prediction_encoding_and_counts (fun _ => (0 : ℤ)) ⟨1, 1, 1, fun _ => [(0 : ℚ)]⟩
    ⟨⟨0, 0, 0, []⟩, []⟩ 0 0 0 (by norm_num) (by norm_num) (by norm_num)
